import Mathlib

/-!
Verification of the EGX30 stock ETL pipeline (`egx30_stock_pipeline.py`).

The pipeline has three stages:
* `extract_stock_data` — fetches a closing price per configured symbol,
  skipping symbols that fail, and raises `ValueError ("No data extracted")`
  when no symbol yields a record;
* `validate_and_prepare` — parses the raw CSV artifact, silently skipping
  malformed rows, deduplicates by symbol keeping the first occurrence, and
  writes a clean data file plus a generated HQL load script;
* the load step runs the generated HQL against Hive.

The embedding below translates these functions into pure Lean functions.
Python floats are modelled as rationals; per-symbol network responses are
modelled as an explicit outcome type so that the control flow of the
extraction loop can be stated exactly.
-/

namespace EGX30

/-- Python `symbol.replace(".CA", "")` on the character list of the string:
a single left-to-right scan that deletes every (non-overlapping) occurrence
of `.CA` it meets, anywhere in the string, and never rescans the part
already produced. -/
def stripCA : List Char → List Char
  | '.' :: 'C' :: 'A' :: rest => stripCA rest
  | c :: rest => c :: stripCA rest
  | [] => []

/-- String-level wrapper for `stripCA`, i.e. `symbol.replace(".CA", "")`. -/
def stripCAStr (s : String) : String :=
  String.mk (stripCA s.data)

/-- Rounding to the nearest integer with ties to even, the tie-breaking
rule of Python `round`. -/
def roundHalfEven (q : ℚ) : ℤ :=
  let f : ℤ := ⌊q⌋
  let frac : ℚ := q - f
  if frac < 1/2 then f
  else if 1/2 < frac then f + 1
  else if f % 2 = 0 then f else f + 1

/-- Python `round(x, 2)`: round to two decimal places (ties to even). -/
def round2 (q : ℚ) : ℚ :=
  (roundHalfEven (q * 100) : ℚ) / 100

/-- One extracted price record, as appended to `all_data` by
`extract_stock_data`. -/
structure PriceRecord where
  date : String
  symbol : String
  price : ℚ
  deriving DecidableEq, Repr

/-- Outcome of the per-symbol fetch in `extract_stock_data`, covering the
branches of the `try` block:
* `failure` — `urlopen`/`json.loads`/indexing raised; the exception is
  caught by the `except` clause;
* `emptyResult` — the payload parsed but `chart.result` is empty, so the
  `if result:` guard skips the symbol;
* `quotes closes` — `chart.result` is non-empty and `closes` is the
  `close` array of its first element (entries may be JSON null). -/
inductive FetchResult where
  | failure : FetchResult
  | emptyResult : FetchResult
  | quotes : List (Option ℚ) → FetchResult
  deriving DecidableEq, Repr

/-- The body of the per-symbol loop in `extract_stock_data`: produces a
record exactly when the close array is non-empty and its first entry is
non-null; the price is rounded to 2 decimals and the symbol has `.CA`
removed. -/
def processSymbol (date : String) (symbol : String) : FetchResult → Option PriceRecord
  | .failure => none
  | .emptyResult => none
  | .quotes [] => none
  | .quotes (none :: _) => none
  | .quotes (some c :: _) =>
      some { date := date, symbol := stripCAStr symbol, price := round2 c }

/-- The accumulation loop of `extract_stock_data` over the configured
symbols, each paired with its fetch outcome: symbols whose processing
yields no record are skipped, the rest are appended in order. -/
def extractLoop (date : String) : List (String × FetchResult) → List PriceRecord
  | [] => []
  | (sym, res) :: rest =>
      match processSymbol date sym res with
      | some r => r :: extractLoop date rest
      | none => extractLoop date rest

/-- `extract_stock_data`: run the loop, then raise
`ValueError ("No data extracted")` iff the accumulated list is empty. -/
def extract_stock_data (date : String) (fetches : List (String × FetchResult)) :
    Except String (List PriceRecord) :=
  let all_data := extractLoop date fetches
  if all_data.isEmpty then .error ("No data extracted")
  else .ok all_data

/-- The configured EGX symbol universe (`egx_symbols`). -/
def egx_symbols : List String :=
  [("EGS01041C010.CA"), ("EGS01071C017.CA"), ("EGS01081C016.CA"),
   ("EGS02021C011.CA"), ("EGS02051C018.CA"), ("EGS02091C014.CA"),
   ("EGS02211C018.CA"), ("EGS02291C010.CA"), ("EGS07061C012.CA")]

/-! ## Validation stage: parsing the raw CSV -/

/-- Python `line.strip()`: remove leading and trailing whitespace
(`Char.isWhitespace` covers the ASCII whitespace Python strips in the
inputs at hand). -/
def pyStrip (cs : List Char) : List Char :=
  ((cs.dropWhile Char.isWhitespace).reverse.dropWhile Char.isWhitespace).reverse

/-- Python `s.split(",")`: split on every comma, keeping empty fields;
the split of the empty string is `[[]]`. -/
def splitComma : List Char → List (List Char)
  | [] => [[]]
  | ',' :: rest => [] :: splitComma rest
  | c :: rest =>
    match splitComma rest with
    | [] => [[c]]
    | field :: r => (c :: field) :: r

/-- Numeric value of a run of decimal digit characters. -/
def digitsVal (ds : List Char) : ℕ :=
  ds.foldl (fun a c => 10 * a + (c.toNat - 48)) 0

/-- Python `float(s)` on finite decimal literals: optional surrounding
whitespace, optional sign, an integer part and/or a fractional part (at
least one digit between them), and an optional exponent with at least one
digit. Returns `none` exactly when Python raises `ValueError`. (The
special literals `inf`/`nan` and digit-group underscores, which never
occur in this pipeline's data, are not modelled.) -/
def pyFloat (cs0 : List Char) : Option ℚ :=
  let cs := pyStrip cs0
  let sc : ℚ × List Char :=
    match cs with
    | '+' :: r => (1, r)
    | '-' :: r => (-1, r)
    | r => (1, r)
  let ip := sc.2.takeWhile Char.isDigit
  let afterInt := sc.2.dropWhile Char.isDigit
  let fc : List Char × List Char :=
    match afterInt with
    | '.' :: r => (r.takeWhile Char.isDigit, r.dropWhile Char.isDigit)
    | r => ([], r)
  if ip = [] ∧ fc.1 = [] then none
  else
    let mant : ℚ := sc.1 * ((digitsVal ip : ℚ) + (digitsVal fc.1 : ℚ) / 10 ^ fc.1.length)
    match fc.2 with
    | [] => some mant
    | e :: r =>
      if e = 'e' ∨ e = 'E' then
        let esc : ℤ × List Char :=
          match r with
          | '+' :: t => (1, t)
          | '-' :: t => (-1, t)
          | t => (1, t)
        let ed := esc.2.takeWhile Char.isDigit
        let rest := esc.2.dropWhile Char.isDigit
        if ed = [] ∨ rest ≠ [] then none
        else some (mant * (10 : ℚ) ^ (esc.1 * (digitsVal ed : ℤ)))
      else none

/-- One row of the clean dataset: `{"symbol": ..., "price": ...}`. -/
structure CleanRow where
  symbol : String
  price : ℚ
  deriving DecidableEq, Repr

/-- The per-line body of the validation loop: strip the line, split on
commas, accept only rows with exactly three fields whose third field
parses as a float; the row keeps the second field as symbol and the parsed
third field as price. `none` means the line is silently skipped. -/
def parseLine (line : String) : Option CleanRow :=
  match splitComma (pyStrip line.data) with
  | [_, sym, priceStr] =>
    match pyFloat priceStr with
    | some p => some { symbol := String.mk sym, price := p }
    | none => none
  | _ => none

/-- The read-and-validate loop over the data lines (the header line has
already been consumed): malformed lines contribute nothing. -/
def readRows : List String → List CleanRow
  | [] => []
  | line :: rest =>
    match parseLine line with
    | some r => r :: readRows rest
    | none => readRows rest

/-- The deduplication loop of `validate_and_prepare`, carrying the `seen`
set of symbols (modelled as a list with membership): a row is kept iff its
symbol has not been seen, and then its symbol is added to `seen`. -/
def dedupLoop (seen : List String) : List CleanRow → List CleanRow
  | [] => []
  | r :: rest =>
    if r.symbol ∈ seen then dedupLoop seen rest
    else r :: dedupLoop (r.symbol :: seen) rest

/-- `unique_data` as computed by `validate_and_prepare`: dedup starting
from the empty `seen` set. -/
def removeDuplicates (rows : List CleanRow) : List CleanRow :=
  dedupLoop [] rows

/-- Specification-level "first occurrence wins" function: keep the head
row and recursively keep the first occurrences among the later rows whose
symbol differs. Used to characterise `removeDuplicates`. -/
def keepFirst : List CleanRow → List CleanRow
  | [] => []
  | r :: rest => r :: keepFirst (rest.filter (fun x => x.symbol ≠ r.symbol))
termination_by l => l.length
decreasing_by
  simp only [List.length_cons]
  exact Nat.lt_succ_of_le (rest.length_filter_le _)

/-! ## Artifact paths and file rendering -/

/-- `csv_path = f"/tmp/egx30_{execution_date}.csv"`. -/
def csvPath (execution_date : String) : String :=
  ("/tmp/egx30_") ++ execution_date ++ (".csv")

/-- `hive_data = f"/tmp/hive_data_{execution_date}.txt"`. -/
def hiveDataPath (execution_date : String) : String :=
  ("/tmp/hive_data_") ++ execution_date ++ (".txt")

/-- `hql_script = f"/tmp/load_hive_{execution_date}.hql"`. -/
def hqlScriptPath (execution_date : String) : String :=
  ("/tmp/load_hive_") ++ execution_date ++ (".hql")

/-- Decimal rendering of a price, modelling the f-string formatting of the
Python float when a row is written (`f"{row[...]}"`): the shortest decimal
expansion, with at least one fractional digit. The exact digits are not
load-bearing for any claim; only totality and determinism are used. -/
def showPrice (q : ℚ) : String :=
  match (List.range 18).find? (fun k => (q * 10 ^ k).den = 1) with
  | some 0 => toString q.num ++ (".0")
  | some k =>
    let sgn := if q.num < 0 then ("-") else ("")
    let ds := (toString (q * 10 ^ k).num.natAbs).data
    let ds := List.replicate (k + 1 - ds.length) '0' ++ ds
    sgn ++ String.mk (ds.take (ds.length - k)) ++ (".") ++ String.mk (ds.drop (ds.length - k))
  | none => toString q.num ++ ("/") ++ toString q.den

/-- The clean data file written by `validate_and_prepare`: one
`symbol,price` line per kept row, no header. -/
def hiveDataFile (rows : List CleanRow) : String :=
  rows.foldr (fun r acc => r.symbol ++ (",") ++ showPrice r.price ++ ("\n") ++ acc) ("")

/-! ## Generated HQL load script -/

/-- Step 1 statement: create the staging table if absent. -/
def stmtCreateStaging : String :=
  ("CREATE TABLE IF NOT EXISTS egx30_staging (\n    stock_symbol STRING,\n    price DECIMAL(10,2)\n)\nROW FORMAT DELIMITED\nFIELDS TERMINATED BY \x27,\x27\nSTORED AS TEXTFILE;")

/-- Step 2 statement: create the partitioned, SNAPPY-compressed ORC target
table if absent, partitioned by `trade_date`. -/
def stmtCreateTarget : String :=
  ("CREATE TABLE IF NOT EXISTS egx30_stocks (\n    stock_symbol STRING,\n    price DECIMAL(10,2)\n)\nPARTITIONED BY (trade_date STRING)\nSTORED AS ORC\nTBLPROPERTIES (\x27orc.compress\x27=\x27SNAPPY\x27);")

/-- Step 3 statement: clear staging. -/
def stmtTruncate : String :=
  ("TRUNCATE TABLE egx30_staging;")

/-- Step 4 statement: bulk-load the clean data file into staging. -/
def stmtLoad (hive_data : String) : String :=
  ("LOAD DATA LOCAL INPATH \x27") ++ hive_data ++ ("\x27 INTO TABLE egx30_staging;")

/-- Step 5 statement: drop the run date's partition if present. -/
def stmtDropPartition (execution_date : String) : String :=
  ("ALTER TABLE egx30_stocks DROP IF EXISTS PARTITION (trade_date=\x27") ++
    execution_date ++ ("\x27);")

/-- Step 6 statement: insert staging into the run date's partition. -/
def stmtInsert (execution_date : String) : String :=
  ("INSERT INTO TABLE egx30_stocks PARTITION (trade_date=\x27") ++ execution_date ++
    ("\x27)\nSELECT stock_symbol, price FROM egx30_staging;")

/-- Step 7 statement: count the rows of the run date's partition. -/
def stmtVerify (execution_date : String) : String :=
  ("SELECT trade_date, COUNT(*) as record_count \nFROM egx30_stocks \nWHERE trade_date=\x27") ++
    execution_date ++ ("\x27\nGROUP BY trade_date;")

/-- The full text of the generated HQL script, byte for byte the
triple-quoted f-string of `validate_and_prepare` with `hive_data` and
`execution_date` interpolated. -/
def buildHQL (hive_data : String) (execution_date : String) : String :=
  ("\n-- Step 1: Create staging table (TEXT format for CSV)\n") ++
  stmtCreateStaging ++
  ("\n\n-- Step 2: Create final ORC table (partitioned)\n") ++
  stmtCreateTarget ++
  ("\n\n-- Step 3: Clear staging\n") ++
  stmtTruncate ++
  ("\n\n-- Step 4: Load CSV into staging\n") ++
  stmtLoad hive_data ++
  ("\n\n-- Step 5: Drop old partition\n") ++
  stmtDropPartition execution_date ++
  ("\n\n-- Step 6: Insert from staging to final table\n") ++
  stmtInsert execution_date ++
  ("\n\n-- Step 7: Verify\n") ++
  stmtVerify execution_date ++
  ("\n")

/-- The whole validation stage: read the raw artifact's lines (skipping
the header line), keep the well-formed rows, deduplicate by symbol, and
produce the clean data file text together with the generated HQL script
text. The stage has no failure outcome: it is a total function of the
input lines and the run date. -/
def validate_and_prepare (execution_date : String) (lines : List String) :
    String × String :=
  let data := readRows (lines.drop 1)
  let unique_data := removeDuplicates data
  (hiveDataFile unique_data, buildHQL (hiveDataPath execution_date) execution_date)

/-! ## Warehouse semantics of the generated script -/

/-- Modelled from the spec: the state of the external Hive warehouse the
generated script runs against — the staging table's rows and, for each
`trade_date`, the rows of that partition of the target table. The spec
treats the warehouse engine as an external collaborator, so its statement
semantics (truncate, load, drop partition, insert) are modelled here
rather than translated from repository code. -/
structure Warehouse where
  staging : List CleanRow
  target : String → List CleanRow

/-- Modelled from the spec: executing the generated script's statements in
order against a warehouse state. Steps 1–2 (`CREATE TABLE IF NOT EXISTS`)
do not change existing tables' contents; step 3 truncates staging; step 4
appends the clean file's rows to staging; step 5 drops the run date's
partition (`DROP IF EXISTS` succeeds whether or not rows are present);
step 6 appends the staging rows to that partition; step 7 is a read-only
count. -/
def runLoadScript (execution_date : String) (fileRows : List CleanRow)
    (w : Warehouse) : Warehouse :=
  let w3 : Warehouse := { w with staging := [] }
  let w4 : Warehouse := { w3 with staging := w3.staging ++ fileRows }
  let w5 : Warehouse := { w4 with target := Function.update w4.target execution_date [] }
  { w5 with
    target := Function.update w5.target execution_date
      (w5.target execution_date ++ w5.staging) }

/-- The verification query of step 7: the row count of the run date's
partition. -/
def partitionCount (w : Warehouse) (execution_date : String) : ℕ :=
  (w.target execution_date).length

/-- Sequential containment of a list of fragments in a character list:
each fragment occurs, and the fragments occur disjointly in the given
order. -/
def occursInOrder (s : List Char) : List (List Char) → Prop
  | [] => True
  | p :: ps => ∃ pre suf, s = pre ++ p ++ suf ∧ occursInOrder suf ps

/-- The spec's reading of normalization: remove the trailing exchange
suffix `.CA` when present (suffix-only stripping, to be compared with the
code's replace-all `stripCAStr`). -/
def stripSuffixCA (s : String) : String :=
  if ['.', 'C', 'A'].isSuffixOf s.data then
    String.mk (s.data.take (s.data.length - 3))
  else s

/-! ## Helper lemmas -/

theorem stripCA_length_le : ∀ l : List Char, (stripCA l).length ≤ l.length := by
  intro l
  induction l using stripCA.induct with
  | case1 rest ih =>
    rw [stripCA.eq_1]
    simp only [List.length_cons]
    omega
  | case2 c rest h ih =>
    rw [stripCA.eq_2 c rest h]
    simp only [List.length_cons]
    omega
  | case3 => simp [stripCA]

theorem readRows_eq_nil {l : List String} (h : ∀ x ∈ l, parseLine x = none) :
    readRows l = [] := by
  induction l with
  | nil => rfl
  | cons x rest ih =>
    have hx : parseLine x = none := h x (List.mem_cons_self x rest)
    simp only [readRows, hx]
    exact ih fun y hy => h y (List.mem_cons_of_mem x hy)

theorem readRows_skip {bad : String} (h : parseLine bad = none) :
    ∀ pre post : List String,
      readRows (pre ++ bad :: post) = readRows (pre ++ post) := by
  intro pre post
  induction pre with
  | nil => simp only [List.nil_append, readRows, h]
  | cons p rest ih =>
    cases hp : parseLine p with
    | some r => simp only [List.cons_append, readRows, hp, List.append_eq, ih]
    | none => simp only [List.cons_append, readRows, hp, List.append_eq, ih]

theorem occursInOrder_step {p suf : List Char} {ps : List (List Char)}
    (pre : List Char) (h : occursInOrder suf ps) :
    occursInOrder (pre ++ (p ++ suf)) (p :: ps) :=
  ⟨pre, suf, by rw [List.append_assoc], h⟩

theorem stripCA_append_occurrence (b : List Char) :
    ∀ a : List Char, stripCA a = a →
      stripCA (a ++ '.' :: 'C' :: 'A' :: b) = a ++ stripCA b := by
  intro a
  induction a using stripCA.induct with
  | case1 rest ih =>
    intro ha
    exfalso
    have h1 := stripCA_length_le rest
    have h2 := congrArg List.length ha
    rw [stripCA.eq_1] at h2
    simp only [List.length_cons] at h2
    omega
  | case2 c rest h ih =>
    intro ha
    rw [stripCA.eq_2 c rest h] at ha
    have hrest : stripCA rest = rest := by
      injection ha
    have hne : ∀ r1 : List Char, c = '.' →
        rest ++ '.' :: 'C' :: 'A' :: b = 'C' :: 'A' :: r1 → False := by
      intro r1 hc heq
      rcases rest with _ | ⟨x, _ | ⟨y, t⟩⟩
      · simp at heq
      · simp at heq
      · simp only [List.cons_append] at heq
        injection heq with hx heq
        injection heq with hy heq
        exact h t hc (by rw [hx, hy])
    rw [List.cons_append, stripCA.eq_2 c _ hne, ih hrest, List.cons_append]
  | case3 =>
    intro _
    rw [List.nil_append, stripCA.eq_1, List.nil_append]

theorem keepFirst_sublist : ∀ l : List CleanRow, (keepFirst l).Sublist l := by
  intro l
  induction l using keepFirst.induct with
  | case1 => simp [keepFirst]
  | case2 r rest ih =>
    simp only [keepFirst]
    exact List.Sublist.cons₂ r (ih.trans (List.filter_sublist rest))

theorem keepFirst_symbols_nodup :
    ∀ l : List CleanRow, ((keepFirst l).map CleanRow.symbol).Nodup := by
  intro l
  induction l using keepFirst.induct with
  | case1 => simp [keepFirst]
  | case2 r rest ih =>
    simp only [keepFirst, List.map_cons, List.nodup_cons]
    refine ⟨?_, ih⟩
    intro hmem
    rcases List.mem_map.mp hmem with ⟨x, hx, hxs⟩
    have hx2 : x ∈ rest.filter (fun y => y.symbol ≠ r.symbol) :=
      (keepFirst_sublist _).subset hx
    have hne := (List.mem_filter.mp hx2).2
    simp only [decide_not, Bool.not_eq_eq_eq_not, Bool.not_true, decide_eq_false_iff_not] at hne
    exact hne hxs

theorem keepFirst_mem_symbols :
    ∀ (l : List CleanRow) (s : String),
      s ∈ l.map CleanRow.symbol ↔ s ∈ (keepFirst l).map CleanRow.symbol := by
  intro l
  induction l using keepFirst.induct with
  | case1 => intro s; simp [keepFirst]
  | case2 r rest ih =>
    intro s
    simp only [keepFirst, List.map_cons, List.mem_cons]
    by_cases hs : s = r.symbol
    · simp [hs]
    · simp only [hs, false_or]
      rw [← ih s]
      constructor
      · intro hm
        rcases List.mem_map.mp hm with ⟨x, hx, hxs⟩
        subst hxs
        refine List.mem_map.mpr ⟨x, List.mem_filter.mpr ⟨hx, ?_⟩, rfl⟩
        simpa using hs
      · intro hm
        rcases List.mem_map.mp hm with ⟨x, hx, hxs⟩
        exact List.mem_map.mpr ⟨x, (List.mem_filter.mp hx).1, hxs⟩

theorem dedupLoop_eq_keepFirst :
    ∀ (rows : List CleanRow) (seen : List String),
      dedupLoop seen rows = keepFirst (rows.filter (fun r => r.symbol ∉ seen)) := by
  intro rows
  induction rows with
  | nil => intro seen; simp [dedupLoop, keepFirst]
  | cons r rest ih =>
    intro seen
    by_cases hmem : r.symbol ∈ seen
    · have hd : (decide (r.symbol ∉ seen)) = false := by simp [hmem]
      simp only [dedupLoop, if_pos hmem, List.filter_cons, hd, Bool.false_eq_true, if_false]
      exact ih seen
    · have hf : (rest.filter (fun x => x.symbol ∉ seen)).filter
          (fun x => x.symbol ≠ r.symbol) =
          rest.filter (fun x => x.symbol ∉ r.symbol :: seen) := by
        rw [List.filter_filter]
        apply List.filter_congr
        intro x hx
        simp [List.mem_cons, not_or, and_comm]
      have hd : (decide (r.symbol ∉ seen)) = true := by simp [hmem]
      simp only [dedupLoop, if_neg hmem, List.filter_cons, hd, if_true]
      simp only [keepFirst]
      rw [ih (r.symbol :: seen), hf]

theorem removeDuplicates_eq_keepFirst (rows : List CleanRow) :
    removeDuplicates rows = keepFirst rows := by
  rw [removeDuplicates, dedupLoop_eq_keepFirst]
  congr 1
  simp

/-! ## Claim theorems -/

/-- C1: the extraction stage raises its run-level error
(`ValueError ("No data extracted")`) iff zero symbols yield a record:
every per-symbol failure is skipped without aborting the loop (first
conjunct), and after the loop the stage errors exactly when the
accumulated record list is empty (second conjunct). -/
theorem C1_extraction_error_iff_empty :
    (∀ (date sym : String) (res : FetchResult) (rest : List (String × FetchResult)),
      processSymbol date sym res = none →
      extractLoop date ((sym, res) :: rest) = extractLoop date rest) ∧
    (∀ (date : String) (fetches : List (String × FetchResult)),
      extract_stock_data date fetches = .error ("No data extracted") ↔
        extractLoop date fetches = []) := by
  constructor
  · intro date sym res rest h
    simp only [extractLoop, h]
  · intro date fetches
    unfold extract_stock_data
    by_cases h : extractLoop date fetches = []
    · simp [h]
    · simp [List.isEmpty_iff, h]

theorem C1_witness :
    extractLoop ("2024-01-02")
        [(("EGS01041C010.CA"), .failure), (("EGS01071C017.CA"), .quotes [some 1])] =
      extractLoop ("2024-01-02") [(("EGS01071C017.CA"), .quotes [some 1])] ∧
    (extract_stock_data ("2024-01-02") [(("EGS01041C010.CA"), .failure)] =
        .error ("No data extracted") ↔
      extractLoop ("2024-01-02") [(("EGS01041C010.CA"), .failure)] = []) :=
  ⟨C1_extraction_error_iff_empty.1 ("2024-01-02") ("EGS01041C010.CA") .failure
      [(("EGS01071C017.CA"), .quotes [some 1])] rfl,
    C1_extraction_error_iff_empty.2 ("2024-01-02") [(("EGS01041C010.CA"), .failure)]⟩

/-- C2: executing the generated load script twice for the same run date
leaves the target partition's contents, and hence its row count, equal to
executing it once — the drop-partition step discards whatever the first
execution inserted before the insert step re-adds exactly the staged
rows. -/
theorem C2_load_script_idempotent (w : Warehouse) (execution_date : String)
    (fileRows : List CleanRow) :
    (runLoadScript execution_date fileRows
        (runLoadScript execution_date fileRows w)).target execution_date =
      (runLoadScript execution_date fileRows w).target execution_date ∧
    partitionCount (runLoadScript execution_date fileRows
        (runLoadScript execution_date fileRows w)) execution_date =
      partitionCount (runLoadScript execution_date fileRows w) execution_date := by
  constructor
  · simp [runLoadScript, partitionCount]
  · simp [runLoadScript, partitionCount]

/-- C3: the clean dataset contains exactly one entry per distinct symbol —
it equals the "first occurrence wins" function `keepFirst`, its symbols
are pairwise distinct, it is a sublist of the input (so output order is
the first-seen input order), and it covers exactly the symbols of the
input. -/
theorem C3_dedup_first_occurrence (rows : List CleanRow) :
    removeDuplicates rows = keepFirst rows ∧
    ((removeDuplicates rows).map CleanRow.symbol).Nodup ∧
    (removeDuplicates rows).Sublist rows ∧
    (∀ s, s ∈ rows.map CleanRow.symbol ↔
      s ∈ (removeDuplicates rows).map CleanRow.symbol) := by
  refine ⟨removeDuplicates_eq_keepFirst rows, ?_, ?_, ?_⟩
  · rw [removeDuplicates_eq_keepFirst]
    exact keepFirst_symbols_nodup rows
  · rw [removeDuplicates_eq_keepFirst]
    exact keepFirst_sublist rows
  · intro s
    rw [removeDuplicates_eq_keepFirst]
    exact keepFirst_mem_symbols rows s

/-- C10: the validation stage is deterministic — its outputs (clean data
file text and load script text) are a function of the raw artifact's
contents and the run date alone, so two executions on equal inputs give
byte-identical outputs. -/
theorem C10_validation_deterministic (d1 d2 : String) (l1 l2 : List String)
    (hd : d1 = d2) (hl : l1 = l2) :
    validate_and_prepare d1 l1 = validate_and_prepare d2 l2 := by
  rw [hd, hl]

/-- C4: a data line of the raw artifact is silently skipped — contributing
nothing and leaving the processing and dedup result of the other rows
unchanged — exactly when it does not split into exactly three
comma-separated fields or its price field does not parse as a number. -/
theorem C4_malformed_line_skipped :
    (∀ line : String, parseLine line = none ↔
      ¬ ∃ a b c q, splitComma (pyStrip line.data) = [a, b, c] ∧ pyFloat c = some q) ∧
    (∀ (pre post : List String) (bad : String), parseLine bad = none →
      readRows (pre ++ bad :: post) = readRows (pre ++ post) ∧
      removeDuplicates (readRows (pre ++ bad :: post)) =
        removeDuplicates (readRows (pre ++ post))) := by
  constructor
  · intro line
    rcases hs : splitComma (pyStrip line.data) with _ | ⟨a, _ | ⟨b, _ | ⟨c, _ | ⟨d, t⟩⟩⟩⟩
    · simp [parseLine, hs]
    · simp [parseLine, hs]
    · simp [parseLine, hs]
    · cases hq : pyFloat c <;> simp [parseLine, hs, hq]
    · simp [parseLine, hs]
  · intro pre post bad h
    refine ⟨readRows_skip h pre post, ?_⟩
    rw [readRows_skip h pre post]

theorem C4_witness :
    readRows [("2024-01-02,EGS01041C010,10.5"), ("a,b"), ("2024-01-02,EGS01071C017,11.5")] =
      readRows [("2024-01-02,EGS01041C010,10.5"), ("2024-01-02,EGS01071C017,11.5")] ∧
    removeDuplicates (readRows
        [("2024-01-02,EGS01041C010,10.5"), ("a,b"), ("2024-01-02,EGS01071C017,11.5")]) =
      removeDuplicates (readRows
        [("2024-01-02,EGS01041C010,10.5"), ("2024-01-02,EGS01071C017,11.5")]) :=
  C4_malformed_line_skipped.2 [("2024-01-02,EGS01041C010,10.5")]
    [("2024-01-02,EGS01071C017,11.5")] ("a,b") rfl

/-- C5: every successful per-symbol response is recorded with price equal
to the source's close rounded to 2 decimal places (first conjunct), and
every record of the extraction batch has a price that is an integer number
of hundredths, i.e. at most 2 fractional digits (second conjunct). -/
theorem C5_price_rounded_two_decimals :
    (∀ (date sym : String) (c : ℚ) (rest : List (Option ℚ)),
      processSymbol date sym (.quotes (some c :: rest)) =
        some { date := date, symbol := stripCAStr sym, price := round2 c }) ∧
    (∀ (date : String) (fetches : List (String × FetchResult)) (r : PriceRecord),
      r ∈ extractLoop date fetches → ∃ n : ℤ, r.price = (n : ℚ) / 100) := by
  constructor
  · intro date sym c rest
    rfl
  · intro date fetches
    induction fetches with
    | nil =>
      intro r hr
      simp [extractLoop] at hr
    | cons f rest ih =>
      intro r hr
      obtain ⟨sym, res⟩ := f
      match res with
      | .failure => exact ih r (by simpa [extractLoop, processSymbol] using hr)
      | .emptyResult => exact ih r (by simpa [extractLoop, processSymbol] using hr)
      | .quotes [] => exact ih r (by simpa [extractLoop, processSymbol] using hr)
      | .quotes (none :: _) => exact ih r (by simpa [extractLoop, processSymbol] using hr)
      | .quotes (some c :: cs) =>
        rcases (by simpa [extractLoop, processSymbol] using hr :
            r = { date := date, symbol := stripCAStr sym, price := round2 c } ∨
              r ∈ extractLoop date rest) with h | h
        · exact ⟨roundHalfEven (c * 100), by rw [h]; rfl⟩
        · exact ih r h

theorem C5_witness :
    processSymbol ("2024-01-02") ("EGS01041C010.CA") (.quotes [some 1]) =
      some { date := ("2024-01-02"), symbol := stripCAStr ("EGS01041C010.CA"),
             price := round2 1 } ∧
    ∃ n : ℤ, ({ date := ("2024-01-02"), symbol := stripCAStr ("EGS01041C010.CA"),
                price := round2 1 } : PriceRecord).price = (n : ℚ) / 100 :=
  ⟨C5_price_rounded_two_decimals.1 ("2024-01-02") ("EGS01041C010.CA") 1 [],
    C5_price_rounded_two_decimals.2 ("2024-01-02")
      [(("EGS01041C010.CA"), .quotes [some 1])] _ (List.mem_cons_self _ _)⟩

/-- C6: for every configured source-form symbol, the symbol stored in the
extraction record is the normalized form with the exchange suffix removed
(for the configured universe the code's replace-all agrees with
suffix-stripping); in particular EGS01041C010.CA is recorded as
EGS01041C010. -/
theorem C6_configured_symbols_normalized :
    (∀ sym ∈ egx_symbols, ∀ (date : String) (c : ℚ) (rest : List (Option ℚ)),
      (processSymbol date sym (.quotes (some c :: rest))).map PriceRecord.symbol =
        some (stripSuffixCA sym) ∧ stripCAStr sym = stripSuffixCA sym) ∧
    stripCAStr ("EGS01041C010.CA") = ("EGS01041C010") := by
  constructor
  · intro sym hsym
    fin_cases hsym <;> exact fun date c rest => ⟨rfl, rfl⟩
  · rfl

theorem C6_witness :
    ((("EGS01041C010.CA") ∈ egx_symbols) ∧
      (processSymbol ("2024-01-02") ("EGS01041C010.CA") (.quotes [some 1])).map
          PriceRecord.symbol = some (stripSuffixCA ("EGS01041C010.CA"))) ∧
    stripCAStr ("EGS01041C010.CA") = stripSuffixCA ("EGS01041C010.CA") :=
  ⟨⟨by decide,
      (C6_configured_symbols_normalized.1 ("EGS01041C010.CA") (by decide)
        ("2024-01-02") 1 []).1⟩,
    (C6_configured_symbols_normalized.1 ("EGS01041C010.CA") (by decide)
      ("2024-01-02") 1 []).2⟩

/-- C8: the validation stage never fails on an empty result: on a raw
input all of whose data rows are malformed it completes, the clean file
text is empty, and the load script is still generated. -/
theorem C8_all_malformed_yields_empty (execution_date : String)
    (lines : List String) (h : ∀ line ∈ lines.drop 1, parseLine line = none) :
    validate_and_prepare execution_date lines =
      (("") , buildHQL (hiveDataPath execution_date) execution_date) := by
  unfold validate_and_prepare
  rw [readRows_eq_nil h]
  rfl

theorem C8_witness :
    validate_and_prepare ("2024-01-02")
        [("date,stock_symbol,price"), ("a,b"), ("x,y,notanumber")] =
      (("") , buildHQL (hiveDataPath ("2024-01-02")) ("2024-01-02")) :=
  C8_all_malformed_yields_empty ("2024-01-02")
    [("date,stock_symbol,price"), ("a,b"), ("x,y,notanumber")] (by decide)

/-- C9: normalization removes every occurrence of ".CA" met by its
left-to-right scan anywhere in the symbol, not only a trailing suffix:
after any prefix the scan leaves unchanged, an occurrence is deleted
wherever it sits (first conjunct); and normalization differs from mere
suffix-stripping on a symbol with an interior occurrence (second
conjunct). -/
theorem C9_normalization_removes_interior :
    (∀ a b : List Char, stripCA a = a →
      stripCA (a ++ '.' :: 'C' :: 'A' :: b) = a ++ stripCA b) ∧
    stripCAStr ("EG.CAS.CA") ≠ stripSuffixCA ("EG.CAS.CA") := by
  constructor
  · intro a b ha
    exact stripCA_append_occurrence b a ha
  · decide

theorem C9_witness :
    stripCA (("EG").data ++ '.' :: 'C' :: 'A' :: ("S").data) =
      ("EG").data ++ stripCA (("S").data) :=
  C9_normalization_removes_interior.1 (("EG").data) (("S").data) (by decide)

/-- C7: the generated load script contains, in this order: the staging
table create, the partitioned compressed target table create, the staging
truncate, the bulk load of the clean dataset path, the drop of the run
date's target partition, the insert from staging into that partition, and
the row-count verification query — with the clean dataset path and the
run date interpolated into the corresponding statements. -/
theorem C7_script_statements_in_order (hive_data execution_date : String) :
    occursInOrder (buildHQL hive_data execution_date).data
      [stmtCreateStaging.data, stmtCreateTarget.data, stmtTruncate.data,
       (stmtLoad hive_data).data, (stmtDropPartition execution_date).data,
       (stmtInsert execution_date).data, (stmtVerify execution_date).data] := by
  simp only [buildHQL, String.data_append, List.append_assoc]
  exact occursInOrder_step _ (occursInOrder_step _ (occursInOrder_step _
    (occursInOrder_step _ (occursInOrder_step _ (occursInOrder_step _
      (occursInOrder_step _ trivial))))))

theorem C10_witness :
    validate_and_prepare ("2024-01-02") [("date,stock_symbol,price"), ("2024-01-02,EGS01041C010,10.0")] =
      validate_and_prepare ("2024-01-02") [("date,stock_symbol,price"), ("2024-01-02,EGS01041C010,10.0")] :=
  C10_validation_deterministic ("2024-01-02") ("2024-01-02")
    [("date,stock_symbol,price"), ("2024-01-02,EGS01041C010,10.0")]
    [("date,stock_symbol,price"), ("2024-01-02,EGS01041C010,10.0")] rfl rfl

end EGX30
